import Mathlib

/-!
Verification development for `jet_sim_3d.py`, a simplified 3-D parton-shower
simulator.  The Python source is shallowly embedded below: momentum vectors
become a record of three reals, the `Parton` binary tree becomes an inductive
type (with an `empty` constructor standing for Python's `None`), the global
random source becomes an explicit stream of real draws, and the side effects
of `split` (log lines, the numpy print-option mutation) become an explicit
state record.
-/

/-- A 3-D momentum vector; the Python code stores it as a 1x3 numpy row
vector `p[0,0], p[0,1], p[0,2]`. -/
structure Vec3 where
  x : ℝ
  y : ℝ
  z : ℝ

/-- Euclidean norm of a 3-D vector; the source computes it as
`np.sqrt(np.sum(np.power(p_0, 2)))`. -/
noncomputable def mag (p : Vec3) : ℝ :=
  Real.sqrt (p.x ^ 2 + p.y ^ 2 + p.z ^ 2)

/-- Embedding of `split(p_0, z, theta_0, theta, phi)` (jet_sim_3d.py lines
73-100), value part only: returns the pair `(p_rad, p_f)` of child momenta. -/
noncomputable def split (p_0 : Vec3) (z theta_0 theta phi : ℝ) : Vec3 × Vec3 :=
  let m := Real.sqrt (p_0.x ^ 2 + p_0.y ^ 2 + p_0.z ^ 2)
  let mag_rad := m * z
  let mag_f := m * (1 - z)
  let theta_rad := theta_0 + theta
  let theta_f := theta_0 - theta
  let phi_rad := phi
  let phi_f := phi + Real.pi
  let p_rad : Vec3 :=
    ⟨mag_rad * Real.cos theta_rad, mag_rad * Real.sin theta_rad,
      mag_rad * Real.sin phi_rad⟩
  let p_f : Vec3 :=
    ⟨mag_f * Real.cos theta_f, mag_f * Real.sin theta_f,
      mag_f * Real.sin phi_f⟩
  (p_rad, p_f)

/-- A parton, i.e. a node of the binary shower tree.  `empty` stands for
Python's `None` (the absent child / absent tree). -/
inductive Parton where
  | empty : Parton
  | mk (data : Vec3) (left_child : Parton) (right_child : Parton) : Parton

/-- Number of (non-empty) nodes of a shower tree. -/
def numNodes : Parton → Nat
  | .empty => 0
  | .mk _ l r => 1 + numNodes l + numNodes r

/-- Depths (counted in nodes from the root, the root itself being at
depth 1) of all leaves of a shower tree. -/
def leafDepths : Parton → List Nat
  | .empty => []
  | .mk _ .empty .empty => [1]
  | .mk _ l r => (leafDepths l ++ leafDepths r).map (fun d => d + 1)

/-- No reachable node of the tree has exactly one child. -/
def noLoneChild : Parton → Prop
  | .empty => True
  | .mk _ l r => (l = .empty ↔ r = .empty) ∧ noLoneChild l ∧ noLoneChild r

/-- Embedding of `create_tree(p_0, theta_0, max_layers, curr_layer)`
(jet_sim_3d.py lines 136-156).  The calls to the global random samplers
`gen_z_val()`, `gen_theta_val()`, `gen_phi_val()` are modelled by an oracle
`gen` giving, for the `ctr`-th node built (in construction order), the
sampled triple `(z, theta, phi)`; the returned counter records how many
sampler-call groups were consumed. -/
noncomputable def create_tree (gen : Nat → ℝ × ℝ × ℝ) (p_0 : Vec3)
    (theta_0 : ℝ) (max_layers curr_layer ctr : Nat) : Parton × Nat :=
  if curr_layer ≥ max_layers then
    (.empty, ctr)
  else
    let s := gen ctr
    let z := s.1
    let theta := s.2.1
    let phi := s.2.2
    let pr := split p_0 z theta_0 theta phi
    let l := create_tree gen pr.1 (theta_0 + theta) max_layers (curr_layer + 1) (ctr + 1)
    let r := create_tree gen pr.2 (theta_0 - theta) max_layers (curr_layer + 1) l.2
    (.mk p_0 l.1 r.1, r.2)
termination_by max_layers - curr_layer
decreasing_by all_goals omega

/-- Embedding of `Visualizer3D.create_graph(node, x_0, y_0, z_0)`
(jet_sim_3d.py lines 46-63).  Instead of plotting, it returns the list of
drawn 3-D line segments (start point, end point) in plotting order. -/
def create_graph : Parton → ℝ → ℝ → ℝ → List ((ℝ × ℝ × ℝ) × (ℝ × ℝ × ℝ))
  | .empty, _, _, _ => []
  | .mk d l r, x_0, y_0, z_0 =>
    let x_end := x_0 + d.x
    let y_end := y_0 + d.y
    let z_end := z_0 + d.z
    ((x_0, y_0, z_0), (x_end, y_end, z_end)) ::
      (create_graph l x_end y_end z_end ++ create_graph r x_end y_end z_end)

/-- Embedding of `gen_z_val()` (jet_sim_3d.py lines 103-113).  `draws k` is
the `k`-th value produced by Python's `random.random()`; iteration starting
at draw index `i` uses `draws i` as `num` and `draws (i+1)` as the acceptance
draw.  The rejection loop is unrolled with explicit fuel; `none` means the
loop has not accepted within `fuel` iterations. -/
noncomputable def gen_z_val (draws : Nat → ℝ) : Nat → Nat → Option ℝ
  | _, 0 => none
  | i, fuel + 1 =>
    let num := draws i
    let f := 1 / (1 + num)
    if draws (i + 1) ≤ f then some num else gen_z_val draws (i + 2) fuel

/-- Embedding of `gen_theta_val()` (jet_sim_3d.py lines 116-125), with the
same draw-stream convention as `gen_z_val`. -/
noncomputable def gen_theta_val (draws : Nat → ℝ) : Nat → Nat → Option ℝ
  | _, 0 => none
  | i, fuel + 1 =>
    let num := draws i * Real.pi / 2
    let f := 1 / (1 + num)
    if draws (i + 1) ≤ f then some num else gen_theta_val draws (i + 2) fuel

/-- Embedding of `gen_phi_val()` (jet_sim_3d.py lines 128-133). -/
noncomputable def gen_phi_val (draws : Nat → ℝ) (i : Nat) : ℝ :=
  draws i * Real.pi / 2

/-- The global state `split` can touch besides its return value: the numpy
print-option precision (mutated by `np.set_printoptions(precision=2)` on
line 98) and the number of log lines emitted so far by the `logging`
module. -/
structure EffState where
  precision : Nat
  logLines : Nat

/-- Embedding of `split` together with its effects on global state: one
`logging.info` line for the angles, the `np.set_printoptions(precision=2)`
call, and one `logging.info` line for the split result. -/
noncomputable def split_effect (st : EffState) (p_0 : Vec3)
    (z theta_0 theta phi : ℝ) : (Vec3 × Vec3) × EffState :=
  let st1 : EffState := ⟨st.precision, st.logLines + 1⟩
  let val := split p_0 z theta_0 theta phi
  let st2 : EffState := ⟨2, st1.logLines⟩
  let st3 : EffState := ⟨st2.precision, st2.logLines + 1⟩
  (val, st3)

/-! ## Helper lemmas about the tree builder -/

lemma create_tree_stop (gen : Nat → ℝ × ℝ × ℝ) (p_0 : Vec3) (theta_0 : ℝ)
    (max_layers curr_layer ctr : Nat) (h : max_layers ≤ curr_layer) :
    create_tree gen p_0 theta_0 max_layers curr_layer ctr = (.empty, ctr) := by
  rw [create_tree]
  simp [h]

lemma create_tree_step (gen : Nat → ℝ × ℝ × ℝ) (p_0 : Vec3) (theta_0 : ℝ)
    (n c ctr : Nat) (h : c < n) :
    create_tree gen p_0 theta_0 n c ctr =
      ((.mk p_0
          (create_tree gen (split p_0 (gen ctr).1 theta_0 (gen ctr).2.1 (gen ctr).2.2).1
            (theta_0 + (gen ctr).2.1) n (c + 1) (ctr + 1)).1
          (create_tree gen (split p_0 (gen ctr).1 theta_0 (gen ctr).2.1 (gen ctr).2.2).2
            (theta_0 - (gen ctr).2.1) n (c + 1)
            (create_tree gen (split p_0 (gen ctr).1 theta_0 (gen ctr).2.1 (gen ctr).2.2).1
              (theta_0 + (gen ctr).2.1) n (c + 1) (ctr + 1)).2).1),
       (create_tree gen (split p_0 (gen ctr).1 theta_0 (gen ctr).2.1 (gen ctr).2.2).2
          (theta_0 - (gen ctr).2.1) n (c + 1)
          (create_tree gen (split p_0 (gen ctr).1 theta_0 (gen ctr).2.1 (gen ctr).2.2).1
            (theta_0 + (gen ctr).2.1) n (c + 1) (ctr + 1)).2).2) := by
  rw [create_tree]
  simp [Nat.not_le.mpr h]

lemma pairwise_eq_replicate (m d : Nat) :
    List.Pairwise (fun a b => a = b) (List.replicate m d) := by
  induction m with
  | zero => simp
  | succ k ih =>
    rw [List.replicate_succ, List.pairwise_cons]
    exact ⟨fun a ha => (List.eq_of_mem_replicate ha).symm, ih⟩

lemma create_tree_shape (k : Nat) : ∀ (gen : Nat → ℝ × ℝ × ℝ) (p_0 : Vec3)
    (theta_0 : ℝ) (n c ctr : Nat), n - c = k →
    numNodes (create_tree gen p_0 theta_0 n c ctr).1 = 2 ^ k - 1 ∧
    leafDepths (create_tree gen p_0 theta_0 n c ctr).1 = List.replicate (2 ^ k / 2) k ∧
    noLoneChild (create_tree gen p_0 theta_0 n c ctr).1 := by
  induction k with
  | zero =>
    intro gen p_0 theta_0 n c ctr hk
    rw [create_tree_stop gen p_0 theta_0 n c ctr (by omega)]
    simp [numNodes, leafDepths, noLoneChild]
  | succ m ih =>
    intro gen p_0 theta_0 n c ctr hk
    have hc : c < n := by omega
    rw [create_tree_step gen p_0 theta_0 n c ctr hc]
    set zz := (gen ctr).1 with hzz
    set tt := (gen ctr).2.1 with htt
    set pp := (gen ctr).2.2 with hpp
    set ctr1 := (create_tree gen (split p_0 zz theta_0 tt pp).1
      (theta_0 + tt) n (c + 1) (ctr + 1)).2 with hctr1
    have hl := ih gen (split p_0 zz theta_0 tt pp).1 (theta_0 + tt) n (c + 1) (ctr + 1) (by omega)
    have hr := ih gen (split p_0 zz theta_0 tt pp).2 (theta_0 - tt) n (c + 1) ctr1 (by omega)
    set L := (create_tree gen (split p_0 zz theta_0 tt pp).1
      (theta_0 + tt) n (c + 1) (ctr + 1)).1 with hLdef
    set R := (create_tree gen (split p_0 zz theta_0 tt pp).2
      (theta_0 - tt) n (c + 1) ctr1).1 with hRdef
    obtain ⟨hln, hld, hlc⟩ := hl
    obtain ⟨hrn, hrd, hrc⟩ := hr
    have h2m : 1 ≤ 2 ^ m := Nat.one_le_two_pow
    have hpow : 2 ^ (m + 1) = 2 * 2 ^ m := by ring
    rcases Nat.eq_zero_or_pos m with hm | hm
    · subst hm
      have hLe : L = .empty := by
        rw [hLdef, create_tree_stop _ _ _ _ _ _ (by omega)]
      have hRe : R = .empty := by
        rw [hRdef, create_tree_stop _ _ _ _ _ _ (by omega)]
      rw [hLe, hRe]
      refine ⟨by norm_num [numNodes], by norm_num [leafDepths], by simp [noLoneChild]⟩
    · have hcn : c + 1 < n := by omega
      obtain ⟨dl, ll, rl, hLs⟩ : ∃ d a b, L = .mk d a b := by
        rw [hLdef, create_tree_step _ _ _ _ _ _ hcn]
        exact ⟨_, _, _, rfl⟩
      obtain ⟨dr, lr, rr, hRs⟩ : ∃ d a b, R = .mk d a b := by
        rw [hRdef, create_tree_step _ _ _ _ _ _ hcn]
        exact ⟨_, _, _, rfl⟩
      rw [hLs] at hln hld hlc
      rw [hRs] at hrn hrd hrc
      rw [hLs, hRs]
      refine ⟨?_, ?_, ?_⟩
      · show numNodes (.mk p_0 (.mk dl ll rl) (.mk dr lr rr)) = _
        rw [numNodes, hln, hrn]
        omega
      · show leafDepths (.mk p_0 (.mk dl ll rl) (.mk dr lr rr)) = _
        rw [leafDepths, hld, hrd, ← List.replicate_add, List.map_replicate]
        have h1 : 2 ^ m = 2 ^ (m - 1) * 2 := by
          rw [← pow_succ]
          congr 1
          omega
        have hev : 2 ^ m / 2 + 2 ^ m / 2 = 2 ^ (m + 1) / 2 := by omega
        rw [hev]
        simp
      · show noLoneChild (.mk p_0 (.mk dl ll rl) (.mk dr lr rr))
        rw [noLoneChild]
        exact ⟨by simp, hlc, hrc⟩

/-! ## Claims about the tree builder -/

/-- C2: for every `max_layers ≥ 0`, the tree returned by
`create_tree(p0, theta0, max_layers, 0)` has exactly `2 ^ max_layers - 1`
nodes and every leaf sits at depth exactly `max_layers` (there are
`2 ^ max_layers / 2` leaves, all at that depth), whatever values the random
samplers produce; in particular for `max_layers = 1` the result is a single
node storing `p0` with both children empty. -/
theorem create_tree_count_and_depths (gen : Nat → ℝ × ℝ × ℝ) (p_0 : Vec3)
    (theta_0 : ℝ) (max_layers ctr : Nat) :
    numNodes (create_tree gen p_0 theta_0 max_layers 0 ctr).1 = 2 ^ max_layers - 1 ∧
    leafDepths (create_tree gen p_0 theta_0 max_layers 0 ctr).1 =
      List.replicate (2 ^ max_layers / 2) max_layers ∧
    (create_tree gen p_0 theta_0 1 0 ctr).1 = .mk p_0 .empty .empty := by
  obtain ⟨h1, h2, _⟩ := create_tree_shape max_layers gen p_0 theta_0 max_layers 0 ctr
    (Nat.sub_zero max_layers)
  refine ⟨h1, h2, ?_⟩
  rw [create_tree_step gen p_0 theta_0 1 0 ctr (by omega)]
  simp [create_tree_stop]

/-- C4: every tree returned by `create_tree` (for any starting layer) has no
reachable node with exactly one populated child, and all root-to-leaf paths
have the same length. -/
theorem create_tree_invariants (gen : Nat → ℝ × ℝ × ℝ) (p_0 : Vec3)
    (theta_0 : ℝ) (max_layers curr_layer ctr : Nat) :
    noLoneChild (create_tree gen p_0 theta_0 max_layers curr_layer ctr).1 ∧
    List.Pairwise (fun a b => a = b)
      (leafDepths (create_tree gen p_0 theta_0 max_layers curr_layer ctr).1) := by
  obtain ⟨_, h2, h3⟩ := create_tree_shape (max_layers - curr_layer) gen p_0 theta_0
    max_layers curr_layer ctr rfl
  refine ⟨h3, ?_⟩
  rw [h2]
  exact pairwise_eq_replicate _ _

/-- C5: whenever `curr_layer ≥ max_layers` (in particular for
`max_layers = 0`, `curr_layer = 0`), `create_tree` returns the empty tree
and consumes no sampled values (the sampler counter is unchanged), hence
performs no split. -/
theorem create_tree_terminal (gen : Nat → ℝ × ℝ × ℝ) (p_0 : Vec3)
    (theta_0 : ℝ) (max_layers curr_layer ctr : Nat)
    (h : curr_layer ≥ max_layers) :
    create_tree gen p_0 theta_0 max_layers curr_layer ctr = (.empty, ctr) :=
  create_tree_stop gen p_0 theta_0 max_layers curr_layer ctr h

/-- Witness for C5: `build_tree(p0 = (1,0,0), theta0 = 0, max_layers = 0,
depth = 0)` returns the empty tree with the sampler counter untouched. -/
theorem create_tree_terminal_witness :
    create_tree (fun _ => ((0 : ℝ), (0 : ℝ), (0 : ℝ))) ⟨1, 0, 0⟩ 0 0 0 0 =
      (.empty, 0) :=
  create_tree_terminal (fun _ => ((0 : ℝ), (0 : ℝ), (0 : ℝ))) ⟨1, 0, 0⟩ 0 0 0 0
    (Nat.le_refl 0)

/-! ## Helper lemmas about the splitter -/

lemma sqrt_xy (a c s : ℝ) (ha : 0 ≤ a) (hcs : c ^ 2 + s ^ 2 = 1) :
    Real.sqrt ((a * c) ^ 2 + (a * s) ^ 2) = a := by
  have h : (a * c) ^ 2 + (a * s) ^ 2 = a ^ 2 := by
    have hh : (a * c) ^ 2 + (a * s) ^ 2 = a ^ 2 * (c ^ 2 + s ^ 2) := by ring
    rw [hh, hcs, mul_one]
  rw [h, Real.sqrt_sq ha]

lemma mag_scaled (a c s t : ℝ) (ha : 0 ≤ a) (hcs : c ^ 2 + s ^ 2 = 1) :
    mag ⟨a * c, a * s, a * t⟩ = a * Real.sqrt (1 + t ^ 2) := by
  show Real.sqrt ((a * c) ^ 2 + (a * s) ^ 2 + (a * t) ^ 2) = a * Real.sqrt (1 + t ^ 2)
  have h : (a * c) ^ 2 + (a * s) ^ 2 + (a * t) ^ 2 = a ^ 2 * (1 + t ^ 2) := by
    have hh : (a * c) ^ 2 + (a * s) ^ 2 + (a * t) ^ 2 = a ^ 2 * ((c ^ 2 + s ^ 2) + t ^ 2) := by
      ring
    rw [hh, hcs]
  rw [h, Real.sqrt_mul (sq_nonneg a), Real.sqrt_sq ha]

/-! ## Claims about the splitter -/

/-- C3: `split` returns child A as
`(mag*z*cos(theta0+theta), mag*z*sin(theta0+theta), mag*z*sin(phi))` and
child B as
`(mag*(1-z)*cos(theta0-theta), mag*(1-z)*sin(theta0-theta), mag*(1-z)*sin(phi+pi))`,
where `mag` is the Euclidean norm of `p0`. -/
theorem split_components (p_0 : Vec3) (z theta_0 theta phi : ℝ) :
    split p_0 z theta_0 theta phi =
      (⟨mag p_0 * z * Real.cos (theta_0 + theta),
        mag p_0 * z * Real.sin (theta_0 + theta),
        mag p_0 * z * Real.sin phi⟩,
       ⟨mag p_0 * (1 - z) * Real.cos (theta_0 - theta),
        mag p_0 * (1 - z) * Real.sin (theta_0 - theta),
        mag p_0 * (1 - z) * Real.sin (phi + Real.pi)⟩) := rfl

/-- Counterexample to C1 as stated: at `p0 = (1,0,0)`, `z = 1/2`,
`theta0 = theta = 0`, `phi = pi/2` (with `z` in the open unit interval) the
first split output has Euclidean norm `sqrt(1/2)`, not `‖p0‖ * z = 1/2`. -/
theorem split_norm_counterexample :
    (1 : ℝ) / 2 ∈ Set.Ioo (0 : ℝ) 1 ∧
    mag (split ⟨1, 0, 0⟩ (1 / 2) 0 0 (Real.pi / 2)).1 ≠ mag ⟨1, 0, 0⟩ * (1 / 2) := by
  have hmag : mag (⟨1, 0, 0⟩ : Vec3) = 1 := by
    show Real.sqrt ((1 : ℝ) ^ 2 + 0 ^ 2 + 0 ^ 2) = 1
    norm_num
  constructor
  · constructor <;> norm_num
  · have h1 : (split ⟨1, 0, 0⟩ (1 / 2) 0 0 (Real.pi / 2)).1 =
        (⟨1 / 2, 0, 1 / 2⟩ : Vec3) := by
      rw [split_components, hmag]
      norm_num [Real.sin_pi_div_two]
    rw [h1, hmag]
    have h2 : mag (⟨1 / 2, 0, 1 / 2⟩ : Vec3) = Real.sqrt (1 / 2) := by
      show Real.sqrt (((1 : ℝ) / 2) ^ 2 + 0 ^ 2 + (1 / 2) ^ 2) = Real.sqrt (1 / 2)
      norm_num
    rw [h2]
    intro h
    have hsq := Real.sq_sqrt (by norm_num : (0 : ℝ) ≤ 1 / 2)
    rw [h] at hsq
    norm_num at hsq

/-- C1 (amended): for `z` in the open unit interval the split outputs have
Euclidean norms `‖p0‖ * z * sqrt(1 + sin^2 phi)` and
`‖p0‖ * (1-z) * sqrt(1 + sin^2 phi)`; the extra factor
`sqrt(1 + sin^2 phi)` comes from the z-component `mag * sin(phi)`, so plain
`‖p0‖ * z` conservation only holds when `sin phi = 0`. -/
theorem split_child_norms (p_0 : Vec3) (z theta_0 theta phi : ℝ)
    (h0 : 0 < z) (h1 : z < 1) :
    mag (split p_0 z theta_0 theta phi).1 =
      mag p_0 * z * Real.sqrt (1 + Real.sin phi ^ 2) ∧
    mag (split p_0 z theta_0 theta phi).2 =
      mag p_0 * (1 - z) * Real.sqrt (1 + Real.sin phi ^ 2) := by
  have hm : 0 ≤ mag p_0 := Real.sqrt_nonneg _
  constructor
  · rw [show (split p_0 z theta_0 theta phi).1 =
        (⟨mag p_0 * z * Real.cos (theta_0 + theta),
          mag p_0 * z * Real.sin (theta_0 + theta),
          mag p_0 * z * Real.sin phi⟩ : Vec3) from rfl]
    exact mag_scaled (mag p_0 * z) _ _ _ (mul_nonneg hm h0.le)
      (Real.cos_sq_add_sin_sq _)
  · rw [show (split p_0 z theta_0 theta phi).2 =
        (⟨mag p_0 * (1 - z) * Real.cos (theta_0 - theta),
          mag p_0 * (1 - z) * Real.sin (theta_0 - theta),
          mag p_0 * (1 - z) * Real.sin (phi + Real.pi)⟩ : Vec3) from rfl]
    rw [mag_scaled (mag p_0 * (1 - z)) _ _ _ (mul_nonneg hm (by linarith))
      (Real.cos_sq_add_sin_sq _)]
    rw [Real.sin_add_pi, neg_sq]

/-- Witness for C1 (amended): at `p0 = (1,0,0)`, `z = 1/2`,
`theta0 = theta = phi = 0` the amended norm identities hold with
`0 < 1/2 < 1`. -/
theorem split_child_norms_witness :
    mag (split ⟨1, 0, 0⟩ (1 / 2) 0 0 0).1 =
      mag ⟨1, 0, 0⟩ * (1 / 2) * Real.sqrt (1 + Real.sin 0 ^ 2) ∧
    mag (split ⟨1, 0, 0⟩ (1 / 2) 0 0 0).2 =
      mag ⟨1, 0, 0⟩ * (1 - 1 / 2) * Real.sqrt (1 + Real.sin 0 ^ 2) :=
  split_child_norms ⟨1, 0, 0⟩ (1 / 2) 0 0 0 (by norm_num) (by norm_num)

/-- C9: the xy-plane projections of the split outputs conserve the input
magnitude in plane: for `z ∈ [0,1]`,
`sqrt(p_a.x^2 + p_a.y^2) = ‖p0‖ * z` and
`sqrt(p_b.x^2 + p_b.y^2) = ‖p0‖ * (1-z)`; consequently a zero-magnitude
input yields two zero vectors. -/
theorem split_xy_projection (p_0 : Vec3) (z theta_0 theta phi : ℝ)
    (h0 : 0 ≤ z) (h1 : z ≤ 1) :
    Real.sqrt ((split p_0 z theta_0 theta phi).1.x ^ 2 +
        (split p_0 z theta_0 theta phi).1.y ^ 2) = mag p_0 * z ∧
    Real.sqrt ((split p_0 z theta_0 theta phi).2.x ^ 2 +
        (split p_0 z theta_0 theta phi).2.y ^ 2) = mag p_0 * (1 - z) ∧
    (mag p_0 = 0 →
      (split p_0 z theta_0 theta phi).1 = ⟨0, 0, 0⟩ ∧
      (split p_0 z theta_0 theta phi).2 = ⟨0, 0, 0⟩) := by
  have hm : 0 ≤ mag p_0 := Real.sqrt_nonneg _
  refine ⟨?_, ?_, ?_⟩
  · show Real.sqrt ((mag p_0 * z * Real.cos (theta_0 + theta)) ^ 2 +
        (mag p_0 * z * Real.sin (theta_0 + theta)) ^ 2) = mag p_0 * z
    exact sqrt_xy (mag p_0 * z) _ _ (mul_nonneg hm h0) (Real.cos_sq_add_sin_sq _)
  · show Real.sqrt ((mag p_0 * (1 - z) * Real.cos (theta_0 - theta)) ^ 2 +
        (mag p_0 * (1 - z) * Real.sin (theta_0 - theta)) ^ 2) = mag p_0 * (1 - z)
    exact sqrt_xy (mag p_0 * (1 - z)) _ _ (mul_nonneg hm (by linarith))
      (Real.cos_sq_add_sin_sq _)
  · intro hz
    constructor
    · rw [show (split p_0 z theta_0 theta phi).1 =
          (⟨mag p_0 * z * Real.cos (theta_0 + theta),
            mag p_0 * z * Real.sin (theta_0 + theta),
            mag p_0 * z * Real.sin phi⟩ : Vec3) from rfl, hz]
      norm_num
    · rw [show (split p_0 z theta_0 theta phi).2 =
          (⟨mag p_0 * (1 - z) * Real.cos (theta_0 - theta),
            mag p_0 * (1 - z) * Real.sin (theta_0 - theta),
            mag p_0 * (1 - z) * Real.sin (phi + Real.pi)⟩ : Vec3) from rfl, hz]
      norm_num

/-- Witness for C9: at the zero input vector and `z = 1/2` both xy-plane
projection identities and the zero-propagation hold. -/
theorem split_xy_projection_witness :
    Real.sqrt ((split ⟨0, 0, 0⟩ (1 / 2) 0 0 0).1.x ^ 2 +
        (split ⟨0, 0, 0⟩ (1 / 2) 0 0 0).1.y ^ 2) = mag ⟨0, 0, 0⟩ * (1 / 2) ∧
    Real.sqrt ((split ⟨0, 0, 0⟩ (1 / 2) 0 0 0).2.x ^ 2 +
        (split ⟨0, 0, 0⟩ (1 / 2) 0 0 0).2.y ^ 2) = mag ⟨0, 0, 0⟩ * (1 - 1 / 2) ∧
    (mag ⟨0, 0, 0⟩ = 0 →
      (split ⟨0, 0, 0⟩ (1 / 2) 0 0 0).1 = ⟨0, 0, 0⟩ ∧
      (split ⟨0, 0, 0⟩ (1 / 2) 0 0 0).2 = ⟨0, 0, 0⟩) :=
  split_xy_projection ⟨0, 0, 0⟩ (1 / 2) 0 0 0 (by norm_num) (by norm_num)

/-! ## Claims about the renderer -/

/-- C6: for every visited node the renderer draws the segment from the
current origin to `origin + node.momentum` and recurses into both children
with that endpoint as their origin; rendering a one-level tree with root
momentum `(1,0,0)` from origin `(0,0,0)` produces exactly the segment from
`(0,0,0)` to `(1,0,0)`. -/
theorem create_graph_segments (d : Vec3) (l r : Parton) (x_0 y_0 z_0 : ℝ) :
    create_graph (.mk d l r) x_0 y_0 z_0 =
      ((x_0, y_0, z_0), (x_0 + d.x, y_0 + d.y, z_0 + d.z)) ::
        (create_graph l (x_0 + d.x) (y_0 + d.y) (z_0 + d.z) ++
         create_graph r (x_0 + d.x) (y_0 + d.y) (z_0 + d.z)) ∧
    create_graph (.mk ⟨1, 0, 0⟩ .empty .empty) 0 0 0 =
      [((0, 0, 0), (1, 0, 0))] := by
  refine ⟨rfl, ?_⟩
  show [(((0 : ℝ), (0 : ℝ), (0 : ℝ)), ((0 : ℝ) + 1, (0 : ℝ) + 0, (0 : ℝ) + 0))] = _
  norm_num

/-- C10: the renderer enumerates segments in preorder: the first segment
emitted for a subtree is the one of its root, followed by all segments of
the left subtree and then all segments of the right subtree. -/
theorem create_graph_preorder (d : Vec3) (l r : Parton) (x_0 y_0 z_0 : ℝ) :
    List.head? (create_graph (.mk d l r) x_0 y_0 z_0) =
      some ((x_0, y_0, z_0), (x_0 + d.x, y_0 + d.y, z_0 + d.z)) ∧
    List.tail (create_graph (.mk d l r) x_0 y_0 z_0) =
      create_graph l (x_0 + d.x) (y_0 + d.y) (z_0 + d.z) ++
      create_graph r (x_0 + d.x) (y_0 + d.y) (z_0 + d.z) :=
  ⟨rfl, rfl⟩

/-! ## Helper lemmas about the samplers -/

lemma gen_z_val_mem (draws : Nat → ℝ)
    (h : ∀ k, 0 ≤ draws k ∧ draws k < 1) :
    ∀ fuel i v, gen_z_val draws i fuel = some v → 0 ≤ v ∧ v < 1 := by
  intro fuel
  induction fuel with
  | zero =>
    intro i v hv
    simp [gen_z_val] at hv
  | succ n ih =>
    intro i v hv
    rw [gen_z_val] at hv
    by_cases hc : draws (i + 1) ≤ 1 / (1 + draws i)
    · simp only [hc, if_true] at hv
      cases hv
      exact h i
    · simp only [hc, if_false] at hv
      exact ih (i + 2) v hv

lemma gen_theta_val_mem (draws : Nat → ℝ)
    (h : ∀ k, 0 ≤ draws k ∧ draws k < 1) :
    ∀ fuel i v, gen_theta_val draws i fuel = some v →
      0 ≤ v ∧ v < Real.pi / 2 := by
  intro fuel
  induction fuel with
  | zero =>
    intro i v hv
    simp [gen_theta_val] at hv
  | succ n ih =>
    intro i v hv
    rw [gen_theta_val] at hv
    by_cases hc : draws (i + 1) ≤ 1 / (1 + draws i * Real.pi / 2)
    · simp only [hc, if_true] at hv
      cases hv
      have hpi := Real.pi_pos
      obtain ⟨hk0, hk1⟩ := h i
      constructor
      · positivity
      · have : draws i * Real.pi < 1 * Real.pi := by
          exact mul_lt_mul_of_pos_right hk1 hpi
        rw [one_mul] at this
        linarith
    · simp only [hc, if_false] at hv
      exact ih (i + 2) v hv

/-! ## Claims about the samplers -/

/-- Counterexample to C7 as stated: if the underlying uniform draw is `0`
(which `random.random()` can return, its range being `[0,1)`), `gen_z_val`
accepts immediately and returns `0`, which is not strictly inside `(0,1)`. -/
theorem gen_z_val_counterexample :
    gen_z_val (fun _ => 0) 0 1 = some 0 ∧ (0 : ℝ) ∉ Set.Ioo (0 : ℝ) 1 := by
  constructor
  · rw [gen_z_val]
    norm_num
  · simp

/-- C7 (amended): if every underlying uniform draw lies in `[0,1)` (the
actual range of `random.random()`), then every value returned by
`gen_z_val` lies in `[0,1)` and every value returned by `gen_theta_val`
lies in `[0, pi/2)`; the intervals are half-open at `0`, not open. -/
theorem gen_val_ranges (draws : Nat → ℝ)
    (h : ∀ k, 0 ≤ draws k ∧ draws k < 1) (i j fuel_z fuel_t : Nat) (v w : ℝ)
    (hv : gen_z_val draws i fuel_z = some v)
    (hw : gen_theta_val draws j fuel_t = some w) :
    (0 ≤ v ∧ v < 1) ∧ (0 ≤ w ∧ w < Real.pi / 2) :=
  ⟨gen_z_val_mem draws h fuel_z i v hv,
   gen_theta_val_mem draws h fuel_t j w hw⟩

/-- Witness for C7 (amended): with the all-zero draw stream both samplers
accept on the first iteration and return `0`, which lies in the stated
half-open ranges. -/
theorem gen_val_ranges_witness :
    (0 ≤ (0 : ℝ) ∧ (0 : ℝ) < 1) ∧ (0 ≤ (0 : ℝ) ∧ (0 : ℝ) < Real.pi / 2) :=
  gen_val_ranges (fun _ => 0) (fun _ => by norm_num) 0 0 1 1 0 0
    (by rw [gen_z_val]; norm_num)
    (by rw [gen_theta_val]; norm_num)

/-! ## Claims about the effects of split -/

/-- Counterexample to C8 as stated: `split` has a side effect beyond
diagnostic logging: it calls `np.set_printoptions(precision=2)`, mutating
numpy's global print precision.  Starting from the default precision 8, a
call leaves the precision at 2. -/
theorem split_effect_counterexample :
    (split_effect ⟨8, 0⟩ ⟨1, 0, 0⟩ (1 / 2) 0 0 0).2.precision ≠ 8 := by
  show (2 : Nat) ≠ 8
  norm_num

/-- C8 (amended): `split` never mutates its input vector and is
deterministic: its value result is a pure function of its arguments,
independent of the ambient global state; its only side effects are the two
diagnostic log lines and setting numpy's print precision to 2. -/
theorem split_effect_spec (st : EffState) (p_0 : Vec3)
    (z theta_0 theta phi : ℝ) :
    split_effect st p_0 z theta_0 theta phi =
      (split p_0 z theta_0 theta phi, ⟨2, st.logLines + 2⟩) := rfl
